import Mathlib

/-
  Shallow embedding of the worm simulation source (main.py): 2D vectors,
  body segments, the energy-driven body-scale generator, the worm's
  eat/burn/move operations, food and virus entities, and the fixed-step
  simulation update.  Real numbers model Python floats (exact
  arithmetic).  The lazy generator is modelled by an explicit stopping
  index together with a fuel-indexed loop that mirrors the while loop.
  Operations that can raise in Python (the zip_longest branch that would
  multiply None by a number, and indexing the last element of an empty
  list) return Option, with none standing for the raised exception.
-/

/-- 2D vector, mirroring class Vec. -/
structure Vec where
  x : ℝ
  y : ℝ

instance : Inhabited Vec := ⟨⟨0, 0⟩⟩

/-- Vec.magnitude: (x*x + y*y) ** 0.5; for a nonnegative argument the
Python half power is the square root. -/
noncomputable def Vec.magnitude (v : Vec) : ℝ :=
  Real.sqrt (v.x * v.x + v.y * v.y)

/-- Vec.normalized: returns the zero vector when the magnitude is zero. -/
noncomputable def Vec.normalized (x y : ℝ) : Vec :=
  let m := Real.sqrt (x * x + y * y)
  if m = 0 then ⟨0, 0⟩ else ⟨x / m, y / m⟩

/-- distance(a, b) = sqrt(dx*dx + dy*dy). -/
noncomputable def distance (a b : Vec) : ℝ :=
  Real.sqrt ((a.x - b.x) * (a.x - b.x) + (a.y - b.y) * (a.y - b.y))

/-- One circular body unit of the worm: class Segment. -/
structure Segment where
  pos : Vec
  radius : ℝ

instance : Inhabited Segment := ⟨⟨⟨0, 0⟩, 0⟩⟩

/-- Worm adjustable parameter, set in the constructor and never mutated. -/
def Worm.power : ℝ := 10.0

/-- Worm adjustable parameter, set in the constructor and never mutated. -/
def Worm.drag : ℝ := 0.04

/-- Worm adjustable parameter, set in the constructor and never mutated. -/
def Worm.energy_efficiency : ℝ := 0.99

/-- Worm adjustable parameter, set in the constructor and never mutated. -/
def Worm.vision_range : ℝ := 200

/-- Worm adjustable parameter, set in the constructor and never mutated. -/
def Worm.body_thickness : ℝ := 0.15

/-- Worm adjustable parameter, set in the constructor and never mutated. -/
def Worm.body_size_multiplier : ℝ := 3.0

/-- Worm adjustable parameter, set in the constructor and never mutated. -/
def Worm.body_size_function_offset : ℝ := 0.1

/-- Local constant node_overlap of Worm.move. -/
def node_overlap : ℝ := 0.5

/-- scale = (self.energy + 0.001) * self.body_size_multiplier, from
Worm.segment_sizes. -/
noncomputable def Worm.scaleOf (energy : ℝ) : ℝ :=
  (energy + 0.001) * Worm.body_size_multiplier

/-- s = i ** (self.body_thickness - i / scale), the body-scale formula of
Worm.segment_sizes; for the bases that occur (i > 1) the Python float
power is the real power. -/
noncomputable def Worm.sFun (scale i : ℝ) : ℝ :=
  i ^ (Worm.body_thickness - i / scale)

/-- Value of the loop variable i of Worm.segment_sizes at the k-th
iteration of its while loop: i starts at 1 + offset and one increment
has happened before the k-th loop yield is considered. -/
def Worm.iVal (k : ℕ) : ℝ :=
  1 + Worm.body_size_function_offset + (k + 1)

/-- First yielded value of Worm.segment_sizes: the head scale, clamped
below by 1.0. -/
noncomputable def Worm.headSize (scale : ℝ) : ℝ :=
  max (Worm.sFun scale (1 + Worm.body_size_function_offset)) 1

open Classical in
/-- Index of the first while-loop iteration of Worm.segment_sizes whose
scale value falls below the 0.5 cutoff (the iteration that breaks
without yielding).  Defined as 0 when no iteration ever falls below the
cutoff, which never happens for the scales reachable in the program. -/
noncomputable def Worm.stopIndex (scale : ℝ) : ℕ :=
  if h : ∃ k : ℕ, Worm.sFun scale (Worm.iVal k) < 0.5 then Nat.find h else 0

/-- The finite list of values yielded by the generator Worm.segment_sizes
at a given energy: the clamped head scale followed by the loop yields up
to (excluding) the first value below the cutoff. -/
noncomputable def Worm.segment_sizes (energy : ℝ) : List ℝ :=
  Worm.headSize (Worm.scaleOf energy) ::
    (List.range (Worm.stopIndex (Worm.scaleOf energy))).map fun k =>
      Worm.sFun (Worm.scaleOf energy) (Worm.iVal k)

/-- Fuel-indexed rendering of the while loop of Worm.segment_sizes,
starting at loop iteration k: stops yielding at the first value below
0.5, or when the fuel runs out. -/
noncomputable def Worm.sizesLoop (scale : ℝ) : ℕ → ℕ → List ℝ
  | 0, _ => []
  | fuel + 1, k =>
    if Worm.sFun scale (Worm.iVal k) < 0.5 then []
    else Worm.sFun scale (Worm.iVal k) :: Worm.sizesLoop scale fuel (k + 1)

/-- The worm: ordered segment chain (index 0 is the head, aliased by
self.head), velocity, acceleration, stored energy and the per-instance
base_size (the constructor radius).  The remaining constructor
attributes are constants, modelled above. -/
structure Worm where
  segments : List Segment
  energy : ℝ
  vel : Vec
  acc : Vec
  base_size : ℝ

/-- self.head.pos: the head is segments[0]. -/
def Worm.headPos (w : Worm) : Vec :=
  w.segments.headI.pos

/-- self.head.radius: the head is segments[0]. -/
def Worm.headRadius (w : Worm) : ℝ :=
  w.segments.headI.radius

/-- The worm state built by the constructor just before its final
self.eat(1.0) call: one segment, zero vectors, zero energy. -/
def Worm.initState (pos : Vec) (radius : ℝ) : Worm :=
  ⟨[⟨pos, radius⟩], 0, ⟨0, 0⟩, ⟨0, 0⟩, radius⟩

/-- Worm.eat: add the energy, then pair the existing segments with the
regenerated scale list via zip_longest; existing segments get their
radius updated in place, extra scale values append new segments placed
at the (original) last segment's position.  none models the exceptions
the Python code would raise: a TypeError when a segment is paired with a
missing scale (None * base_size), and an IndexError when appending with
no last segment. -/
noncomputable def Worm.eat (w : Worm) (energy : ℝ) : Option Worm :=
  let E := w.energy + energy
  let sizes := Worm.segment_sizes E
  match w.segments.getLast? with
  | none => if sizes.isEmpty then some { w with energy := E } else none
  | some last =>
    if sizes.length < w.segments.length then none
    else
      some { w with
        energy := E,
        segments :=
          List.zipWith (fun seg sz => ⟨seg.pos, sz * w.base_size⟩) w.segments sizes ++
            (sizes.drop w.segments.length).map fun sz => ⟨last.pos, sz * w.base_size⟩ }

/-- Worm.burn: subtract the energy, clamp at zero, then rebuild the
segment list by zipping the existing segments with the regenerated
scale list (zip truncates at the shorter list, discarding tail
segments). -/
noncomputable def Worm.burn (w : Worm) (energy : ℝ) : Worm :=
  let E := if w.energy - energy < 0 then 0 else w.energy - energy
  { w with
    energy := E,
    segments :=
      List.zipWith (fun seg sz => ⟨seg.pos, sz * w.base_size⟩) w.segments
        (Worm.segment_sizes E) }

/-- The energy drain computed at the top of Worm.move. -/
noncomputable def Worm.drain (w : Worm) (dt : ℝ) : ℝ :=
  w.acc.magnitude * (1.0 - Worm.energy_efficiency) * Worm.power * dt

/-- One step of the relaxation loop of Worm.move: the follower n is
moved straight toward its (already final) predecessor p by the clipping
amount when the pair is further apart than the allowed overlap
distance. -/
noncomputable def relaxStep (p n : Segment) : Segment :=
  let d := distance p.pos n.pos
  let clip := d - (p.radius + n.radius) * (1 - node_overlap)
  if 0 < clip then
    ⟨⟨n.pos.x + (p.pos.x - n.pos.x) / d * clip,
      n.pos.y + (p.pos.y - n.pos.y) / d * clip⟩, n.radius⟩
  else n

/-- Tail of the relaxation pass: each follower is corrected against its
already-corrected predecessor, exactly as pairwise(self.segments) sees
the in-place updates. -/
noncomputable def relaxGo (cur : Segment) : List Segment → List Segment
  | [] => []
  | n :: rest =>
    let n2 := relaxStep cur n
    n2 :: relaxGo n2 rest

/-- The full single relaxation pass over the chain (the pairwise loop at
the end of Worm.move). -/
noncomputable def relaxPass : List Segment → List Segment
  | [] => []
  | h :: t => h :: relaxGo h t

/-- Worm.move: compute the drain, zero the energy when the drain exceeds
it, burn the drain (which also rebuilds the segment list), update and
damp the velocity, advance the head, then run one relaxation pass. -/
noncomputable def Worm.move (w : Worm) (dt : ℝ) : Worm :=
  let drain := w.drain dt
  let w1 : Worm := { w with energy := if w.energy < drain then 0 else w.energy }
  let w2 := w1.burn drain
  let vel : Vec := ⟨(w.vel.x + w.acc.x * Worm.power * dt) * (1 - Worm.drag),
                    (w.vel.y + w.acc.y * Worm.power * dt) * (1 - Worm.drag)⟩
  let segs := match w2.segments with
    | [] => []
    | h :: t => ⟨⟨h.pos.x + vel.x, h.pos.y + vel.y⟩, h.radius⟩ :: t
  { w2 with vel := vel, segments := relaxPass segs }

/-- class Food: a decaying particle. -/
structure Food where
  pos : Vec
  radius : ℝ

/-- Food.update: decay the radius by 0.4 * dt; the boolean is the return
value (False means the food should be removed from the simulation). -/
noncomputable def Food.update (f : Food) (dt : ℝ) : Food × Bool :=
  let f2 : Food := ⟨f.pos, f.radius - 0.4 * dt⟩
  (f2, if 0.7 < f2.radius then true else false)

/-- class Virus: predator particle with a dormant/active state machine. -/
structure Virus where
  pos : Vec
  vel : Vec
  acc : Vec
  radius : ℝ
  lifetime : ℝ
  inactivity_time : ℝ
  active : Bool
  power : ℝ
  drag : ℝ
  vision_range : ℝ

/-- Virus constructor. -/
def Virus.init (pos : Vec) (radius : ℝ) : Virus :=
  ⟨pos, ⟨0, 0⟩, ⟨0, 0⟩, radius, 0, 3.0, false, 1.0, 0.02, 100⟩

/-- Virus.move: accumulate acceleration into velocity, damp, advance. -/
noncomputable def Virus.move (v : Virus) : Virus :=
  let vx := (v.vel.x + v.acc.x) * (1 - v.drag)
  let vy := (v.vel.y + v.acc.y) * (1 - v.drag)
  { v with vel := ⟨vx, vy⟩, pos := ⟨v.pos.x + vx, v.pos.y + vy⟩ }

/-- The nearest-worm scan of Virus.update: first the vision filter, then
the strictly-closer test, exactly in list order. -/
noncomputable def closestWorm (range : ℝ) (p : Vec) : List Worm → Option (Worm × ℝ) :=
  List.foldl
    (fun acc wm =>
      let d := distance p wm.headPos
      if range < d then acc
      else
        match acc with
        | none => some (wm, d)
        | some (_, bd) => if d < bd then some (wm, d) else acc)
    none

/-- Virus.update: advance the lifetime; while dormant, only test the
one-way activation trigger and keep the virus; once active, home toward
the nearest visible worm head (if any), decay the radius, and report
whether the virus survives (radius > 0.7). -/
noncomputable def Virus.update (v : Virus) (worms : List Worm) (dt : ℝ) : Virus × Bool :=
  let v1 : Virus := { v with lifetime := v.lifetime + dt }
  if v1.active = false then
    (if v1.inactivity_time < v1.lifetime then { v1 with active := true } else v1, true)
  else
    let v2 := match closestWorm v1.vision_range v1.pos worms with
      | none => v1
      | some (wm, d) =>
        Virus.move { v1 with acc :=
          ⟨(wm.headPos.x - v1.pos.x) / d * v1.power * dt,
           (wm.headPos.y - v1.pos.y) / d * v1.power * dt⟩ }
    let v3 : Virus := { v2 with radius := v2.radius - 0.2 * dt }
    (v3, if 0.7 < v3.radius then true else false)

/-- The nearest-food scan of Worm.update, same shape as closestWorm. -/
noncomputable def closestFood (head : Vec) : List Food → Option (Food × ℝ) :=
  List.foldl
    (fun acc food =>
      let d := distance head food.pos
      if Worm.vision_range < d then acc
      else
        match acc with
        | none => some (food, d)
        | some (_, bd) => if d < bd then some (food, d) else acc)
    none

/-- keyboard snapshot and the random draws consumed by one
Simulation.update tick, passed in as an oracle: wander is some pair of
unit-interval draws when the 5 percent wander trial fires, foodSpawn and
virusSpawn carry the uniformly drawn position when the respective
Bernoulli trial fires. -/
structure SimEnv where
  keyW : Bool
  keyS : Bool
  keyA : Bool
  keyD : Bool
  wander : Option (ℝ × ℝ)
  foodSpawn : Option Vec
  virusSpawn : Option Vec

/-- Worm.update (automatic control): aim at the nearest visible food, or
wander randomly when none is visible, then move.  When the nearest food
sits exactly on the head (distance zero, a ZeroDivisionError in Python)
the Lean division yields zero components. -/
noncomputable def Worm.updateAuto (w : Worm) (foods : List Food) (wander : Option (ℝ × ℝ))
    (dt : ℝ) : Worm :=
  let acc2 : Vec := match closestFood w.headPos foods with
    | none =>
      match wander with
      | some (rx, ry) => Vec.normalized (rx * 2 - 1) (ry * 2 - 1)
      | none => w.acc
    | some (food, d) => ⟨(food.pos.x - w.headPos.x) / d, (food.pos.y - w.headPos.y) / d⟩
  Worm.move { w with acc := acc2 } dt

/-- Worm.update_manual: direction from the held keys, normalized, then
move. -/
noncomputable def Worm.updateManual (w : Worm) (env : SimEnv) (dt : ℝ) : Worm :=
  let x : ℝ := (if env.keyA then -1 else 0) + (if env.keyD then 1 else 0)
  let y : ℝ := (if env.keyW then -1 else 0) + (if env.keyS then 1 else 0)
  Worm.move { w with acc := Vec.normalized x y } dt

/-- The worm built by the Worm constructor: initState followed by
self.eat(1.0). -/
noncomputable def mkWorm (pos : Vec) (radius : ℝ) : Option Worm :=
  (Worm.initState pos radius).eat 1.0

/-- class Simulation: the top-level container (drawing state omitted). -/
structure Simulation where
  update_dt : ℝ
  window_width : ℝ
  window_height : ℝ
  manual_control : Bool
  worm : Worm
  foods : List Food
  viruses : List Virus

/-- The simulation-boundaries block of Simulation.update: clamp the head
position (segments[0]) into the field rectangle with the two
if/elif chains. -/
noncomputable def clampHead (w : Worm) (W H : ℝ) : Worm :=
  match w.segments with
  | [] => w
  | h :: t =>
    let px := if h.pos.x < 0 then 0 else if W < h.pos.x then W else h.pos.x
    let py := if h.pos.y < 0 then 0 else if H < h.pos.y then H else h.pos.y
    { w with segments := ⟨⟨px, py⟩, h.radius⟩ :: t }

/-- The food loop of Simulation.update, with Python's
removal-during-iteration semantics made explicit: the list iterator
advances its index i on the evolving list, so removing the element at i
shifts the next element into slot i and that element is skipped.
Consumption (head overlap) removes the food and feeds the worm 0.1;
otherwise the food decays and is removed when its update returns False.
none propagates a Worm.eat exception. -/
noncomputable def foodLoop (w : Worm) (foods : List Food) (i : ℕ) (dt : ℝ) :
    Option (Worm × List Food) :=
  if h : foods.length ≤ i then some (w, foods)
  else
    if distance w.headPos (foods.get ⟨i, by omega⟩).pos <
        w.headRadius + (foods.get ⟨i, by omega⟩).radius then
      match w.eat 0.1 with
      | none => none
      | some w2 => foodLoop w2 (foods.eraseIdx i) (i + 1) dt
    else
      if ((foods.get ⟨i, by omega⟩).update dt).2 = true then
        foodLoop w (foods.set i ((foods.get ⟨i, by omega⟩).update dt).1) (i + 1) dt
      else foodLoop w (foods.eraseIdx i) (i + 1) dt
termination_by foods.length - i
decreasing_by
  · simp [List.length_eraseIdx, Nat.lt_of_not_le h]; omega
  · simp; omega
  · simp [List.length_eraseIdx, Nat.lt_of_not_le h]; omega

/-- The virus loop of Simulation.update, same iterator semantics: an
active virus touching the head is removed and burns the worm by 0.1;
otherwise the virus updates and is removed when its update returns
False. -/
noncomputable def virusLoop (w : Worm) (vs : List Virus) (i : ℕ) (dt : ℝ) :
    Worm × List Virus :=
  if h : vs.length ≤ i then (w, vs)
  else
    if (vs.get ⟨i, by omega⟩).active = true ∧
        distance w.headPos (vs.get ⟨i, by omega⟩).pos <
          w.headRadius + (vs.get ⟨i, by omega⟩).radius then
      virusLoop (w.burn 0.1) (vs.eraseIdx i) (i + 1) dt
    else
      if ((vs.get ⟨i, by omega⟩).update [w] dt).2 = true then
        virusLoop w (vs.set i ((vs.get ⟨i, by omega⟩).update [w] dt).1) (i + 1) dt
      else virusLoop w (vs.eraseIdx i) (i + 1) dt
termination_by vs.length - i
decreasing_by
  · simp [List.length_eraseIdx, Nat.lt_of_not_le h]; omega
  · simp; omega
  · simp [List.length_eraseIdx, Nat.lt_of_not_le h]; omega

/-- Simulation.update: move the worm (manual or automatic), respawn a
fresh worm at the field center on death, clamp the head into the field,
append the randomly spawned entities, then run the food and virus
loops.  none propagates a Worm.eat exception (from respawn or food
consumption). -/
noncomputable def Simulation.update (sim : Simulation) (env : SimEnv) : Option Simulation :=
  let wMoved := if sim.manual_control then sim.worm.updateManual env sim.update_dt
                else sim.worm.updateAuto sim.foods env.wander sim.update_dt
  let wAliveOpt : Option Worm :=
    if 0 < wMoved.energy then some wMoved
    else mkWorm ⟨(⌊sim.window_width / 2⌋ : ℤ), (⌊sim.window_height / 2⌋ : ℤ)⟩ 10
  match wAliveOpt with
  | none => none
  | some w1 =>
    let w2 := clampHead w1 sim.window_width sim.window_height
    let foods1 := match env.foodSpawn with
      | none => sim.foods
      | some p => sim.foods ++ [⟨p, 10⟩]
    let viruses1 := match env.virusSpawn with
      | none => sim.viruses
      | some p => sim.viruses ++ [Virus.init p 7]
    match foodLoop w2 foods1 0 sim.update_dt with
    | none => none
    | some (w3, foods2) =>
      let wv := virusLoop w3 viruses1 0 sim.update_dt
      some { sim with worm := wv.1, foods := foods2, viruses := wv.2 }

/-- Worm states reachable in the program: the constructor's pre-eat
state (for any position and radius), closed under successful eat with
nonnegative energy, burn with nonnegative energy, move with nonnegative
timestep, setting the acceleration (the targeting policies), and
repositioning the head (the boundary clamp). -/
inductive Reachable : Worm → Prop
  | initBase (pos : Vec) (radius : ℝ) : Reachable (Worm.initState pos radius)
  | eat (w w2 : Worm) (e : ℝ) : Reachable w → 0 ≤ e → w.eat e = some w2 → Reachable w2
  | burn (w : Worm) (e : ℝ) : Reachable w → 0 ≤ e → Reachable (w.burn e)
  | move (w : Worm) (dt : ℝ) : Reachable w → 0 ≤ dt → Reachable (w.move dt)
  | setAcc (w : Worm) (a : Vec) : Reachable w → Reachable { w with acc := a }
  | clamp (w : Worm) (W H : ℝ) : Reachable w → Reachable (clampHead w W H)

/-- The reachable-state invariant: nonnegative energy and a segment
count equal to the generator's current yield count. -/
def WormInv (w : Worm) : Prop :=
  0 ≤ w.energy ∧ w.segments.length = (Worm.segment_sizes w.energy).length

/-- Trajectory of a virus stepped at dt = 1/60 against an arbitrary
per-tick list of worms. -/
noncomputable def virusTraj (p : Vec) (r : ℝ) (worms : ℕ → List Worm) : ℕ → Virus
  | 0 => Virus.init p r
  | k + 1 => (Virus.update (virusTraj p r worms k) (worms k) (1 / 60)).1

/-- Concrete worm for the C6 counterexample: two segments and one unit
of energy. -/
def WormC6 : Worm :=
  ⟨[⟨⟨0, 0⟩, 10⟩, ⟨⟨0, 0⟩, 5⟩], 1, ⟨0, 0⟩, ⟨0, 0⟩, 10⟩

/-! Helper lemmas about the body-scale generator. -/

lemma Worm.iVal_ge (k : ℕ) : (2.1 : ℝ) ≤ Worm.iVal k := by
  have hk : (0 : ℝ) ≤ (k : ℝ) := Nat.cast_nonneg k
  simp only [Worm.iVal, Worm.body_size_function_offset]
  norm_num
  linarith

lemma Worm.one_le_iVal (k : ℕ) : (1 : ℝ) ≤ Worm.iVal k := by
  have := Worm.iVal_ge k
  linarith

lemma Worm.sFun_lt_half {scale : ℝ} {k : ℕ}
    (h : Worm.body_thickness - Worm.iVal k / scale ≤ -1) :
    Worm.sFun scale (Worm.iVal k) < 0.5 := by
  have h21 : (2.1 : ℝ) ≤ Worm.iVal k := Worm.iVal_ge k
  have e1 : Worm.sFun scale (Worm.iVal k) ≤ Worm.iVal k ^ (-1 : ℝ) :=
    Real.rpow_le_rpow_of_exponent_le (Worm.one_le_iVal k) h
  rw [Real.rpow_neg_one] at e1
  have e2 : (Worm.iVal k)⁻¹ ≤ (2.1 : ℝ)⁻¹ := inv_anti₀ (by norm_num) h21
  calc Worm.sFun scale (Worm.iVal k) ≤ (Worm.iVal k)⁻¹ := e1
    _ ≤ (2.1 : ℝ)⁻¹ := e2
    _ < 0.5 := by norm_num

lemma Worm.exists_stop {scale : ℝ} (hs : 0 < scale) :
    ∃ k : ℕ, Worm.sFun scale (Worm.iVal k) < 0.5 := by
  obtain ⟨n, hn⟩ := exists_nat_gt (1.15 * scale)
  refine ⟨n, Worm.sFun_lt_half ?_⟩
  have hle : (n : ℝ) ≤ Worm.iVal n := by
    simp only [Worm.iVal, Worm.body_size_function_offset]
    linarith
  have hdiv : (1.15 : ℝ) ≤ Worm.iVal n / scale := (le_div_iff₀ hs).2 (by linarith)
  simp only [Worm.body_thickness]
  linarith

lemma Worm.sFun_le_sFun {a b i : ℝ} (ha : 0 < a) (hab : a ≤ b) (hi : 1 ≤ i) :
    Worm.sFun a i ≤ Worm.sFun b i := by
  apply Real.rpow_le_rpow_of_exponent_le hi
  have hdiv : i / b ≤ i / a := by
    have hi0 : (0 : ℝ) ≤ i := by linarith
    gcongr
  simp only [Worm.body_thickness]
  linarith

lemma Worm.stopIndex_mono {a b : ℝ} (ha : 0 < a) (hab : a ≤ b) :
    Worm.stopIndex a ≤ Worm.stopIndex b := by
  have hb : 0 < b := lt_of_lt_of_le ha hab
  have hea := Worm.exists_stop ha
  have heb := Worm.exists_stop hb
  unfold Worm.stopIndex
  rw [dif_pos hea, dif_pos heb]
  exact Nat.find_mono fun n hn =>
    lt_of_le_of_lt (Worm.sFun_le_sFun ha hab (Worm.one_le_iVal n)) hn

lemma Worm.scaleOf_nonneg_pos {E : ℝ} (h : 0 ≤ E) : 0 < Worm.scaleOf E := by
  simp only [Worm.scaleOf, Worm.body_size_multiplier]
  nlinarith

lemma Worm.scaleOf_mono {a b : ℝ} (h : a ≤ b) : Worm.scaleOf a ≤ Worm.scaleOf b := by
  simp only [Worm.scaleOf, Worm.body_size_multiplier]
  nlinarith

lemma Worm.length_segment_sizes (E : ℝ) :
    (Worm.segment_sizes E).length = Worm.stopIndex (Worm.scaleOf E) + 1 := by
  simp [Worm.segment_sizes, Nat.add_comm]

lemma Worm.sizes_length_mono {a b : ℝ} (ha : 0 ≤ a) (hab : a ≤ b) :
    (Worm.segment_sizes a).length ≤ (Worm.segment_sizes b).length := by
  rw [Worm.length_segment_sizes, Worm.length_segment_sizes]
  have := Worm.stopIndex_mono (Worm.scaleOf_nonneg_pos ha) (Worm.scaleOf_mono hab)
  omega

lemma Worm.one_le_headSize (scale : ℝ) : 1 ≤ Worm.headSize scale :=
  le_max_right _ _

lemma Worm.headSize_eq_one {scale : ℝ}
    (h : Worm.body_thickness - (1 + Worm.body_size_function_offset) / scale < 0) :
    Worm.headSize scale = 1 := by
  have hb : (1 : ℝ) < 1 + Worm.body_size_function_offset := by
    norm_num [Worm.body_size_function_offset]
  have hlt : Worm.sFun scale (1 + Worm.body_size_function_offset) < 1 :=
    Real.rpow_lt_one_of_one_lt_of_neg hb h
  exact max_eq_right (le_of_lt hlt)

lemma Worm.stopIndex_scaleOf_zero : Worm.stopIndex (Worm.scaleOf 0) = 0 := by
  have hP0 : Worm.sFun (Worm.scaleOf 0) (Worm.iVal 0) < 0.5 := by
    apply Worm.sFun_lt_half
    simp only [Worm.body_thickness, Worm.iVal, Worm.body_size_function_offset,
      Worm.scaleOf, Worm.body_size_multiplier]
    norm_num
  unfold Worm.stopIndex
  rw [dif_pos ⟨0, hP0⟩]
  exact (Nat.find_eq_zero _).2 hP0

lemma Worm.segment_sizes_zero : Worm.segment_sizes 0 = [1] := by
  have h1 : Worm.headSize (Worm.scaleOf 0) = 1 := by
    apply Worm.headSize_eq_one
    simp only [Worm.body_thickness, Worm.body_size_function_offset,
      Worm.scaleOf, Worm.body_size_multiplier]
    norm_num
  simp [Worm.segment_sizes, Worm.stopIndex_scaleOf_zero, h1]

lemma Worm.headSize_scaleOf_one : Worm.headSize (Worm.scaleOf 1) = 1 := by
  apply Worm.headSize_eq_one
  simp only [Worm.body_thickness, Worm.body_size_function_offset,
    Worm.scaleOf, Worm.body_size_multiplier]
  norm_num

lemma Worm.sizesLoop_spec (scale : ℝ) :
    ∀ (m fuel k : ℕ), m < fuel →
      (∀ j, j < m → ¬ Worm.sFun scale (Worm.iVal (k + j)) < 0.5) →
      Worm.sFun scale (Worm.iVal (k + m)) < 0.5 →
      Worm.sizesLoop scale fuel k =
        (List.range m).map fun j => Worm.sFun scale (Worm.iVal (k + j)) := by
  intro m
  induction m with
  | zero =>
    intro fuel k hf _ hstop
    match fuel, hf with
    | fuel + 1, _ =>
      simp only [Worm.sizesLoop]
      rw [if_pos (by simpa using hstop)]
      simp
  | succ m ih =>
    intro fuel k hf hkeep hstop
    match fuel, hf with
    | fuel + 1, hf =>
      simp only [Worm.sizesLoop]
      rw [if_neg (by simpa using hkeep 0 (Nat.succ_pos m))]
      rw [ih fuel (k + 1) (by omega)
        (fun j hj => by
          have := hkeep (j + 1) (by omega)
          simpa [Nat.add_assoc, Nat.add_comm 1 j] using this)
        (by
          have : k + 1 + m = k + (m + 1) := by omega
          rw [this]
          exact hstop)]
      rw [List.range_succ_eq_map, List.map_cons, List.map_map]
      congr 1
      apply List.map_congr_left
      intro a _
      have harg : k + 1 + a = k + (a + 1) := by omega
      simp only [Function.comp_apply, Nat.succ_eq_add_one, harg]

/-- Claim C3: for every energy value e > 0, the Worm.segment_sizes
generator yields only finitely many values: there is a stopping
iteration K, the first whose scale value s(i) = i^(body_thickness -
i/scale) with scale = (e + 0.001) * body_size_multiplier falls below the
0.5 cutoff; the while loop run with any sufficient fuel stops exactly
there, and the generator's output is the head scale followed by the K
yields before the stopping iteration. -/
theorem C3_segment_sizes_terminates (e : ℝ) (he : 0 < e) :
    ∃ K : ℕ,
      Worm.sFun (Worm.scaleOf e) (Worm.iVal K) < 0.5 ∧
      (∀ j, j < K → ¬ Worm.sFun (Worm.scaleOf e) (Worm.iVal j) < 0.5) ∧
      (∀ fuel, K < fuel →
        Worm.sizesLoop (Worm.scaleOf e) fuel 0 =
          (List.range K).map fun k => Worm.sFun (Worm.scaleOf e) (Worm.iVal k)) ∧
      Worm.segment_sizes e =
        Worm.headSize (Worm.scaleOf e) ::
          (List.range K).map fun k => Worm.sFun (Worm.scaleOf e) (Worm.iVal k) := by
  have hs : 0 < Worm.scaleOf e := Worm.scaleOf_nonneg_pos (le_of_lt he)
  have hex := Worm.exists_stop hs
  refine ⟨Nat.find hex, Nat.find_spec hex, fun j hj => Nat.find_min hex hj, ?_, ?_⟩
  · intro fuel hfuel
    have := Worm.sizesLoop_spec (Worm.scaleOf e) (Nat.find hex) fuel 0 hfuel
      (fun j hj => by simpa using Nat.find_min hex hj)
      (by simpa using Nat.find_spec hex)
    simpa using this
  · simp only [Worm.segment_sizes, Worm.stopIndex, dif_pos hex]

/-- Witness for C3 at the concrete energy 0.999. -/
theorem C3_segment_sizes_terminates_witness :
    (0 : ℝ) < 0.999 ∧
    ∃ K : ℕ,
      Worm.sFun (Worm.scaleOf 0.999) (Worm.iVal K) < 0.5 ∧
      (∀ j, j < K → ¬ Worm.sFun (Worm.scaleOf 0.999) (Worm.iVal j) < 0.5) ∧
      (∀ fuel, K < fuel →
        Worm.sizesLoop (Worm.scaleOf 0.999) fuel 0 =
          (List.range K).map fun k => Worm.sFun (Worm.scaleOf 0.999) (Worm.iVal k)) ∧
      Worm.segment_sizes 0.999 =
        Worm.headSize (Worm.scaleOf 0.999) ::
          (List.range K).map fun k => Worm.sFun (Worm.scaleOf 0.999) (Worm.iVal k) :=
  ⟨by norm_num, C3_segment_sizes_terminates 0.999 (by norm_num)⟩

/-- Claim C2, counterexample: at energy 699.999 the yielded scale
sequence is not non-increasing: the scale constant is 2100, the head
yield is max(1.1^(3139/21000), 1) < 1.1, while the second yield is
2.1^(149/1000) > 1.1, so the sequence strictly increases from index 0
to index 1. -/
theorem C2_counterexample :
    ¬ List.Chain' (fun a b => b ≤ a) (Worm.segment_sizes 699.999) := by
  intro hchain
  have hscale : Worm.scaleOf 699.999 = 2100 := by
    simp only [Worm.scaleOf, Worm.body_size_multiplier]
    norm_num
  have hex : ∃ k : ℕ, Worm.sFun (Worm.scaleOf 699.999) (Worm.iVal k) < 0.5 :=
    Worm.exists_stop (by rw [hscale]; norm_num)
  have hval0 : Worm.sFun (Worm.scaleOf 699.999) (Worm.iVal 0) =
      (2.1 : ℝ) ^ ((149 : ℝ) / 1000) := by
    rw [hscale]
    simp only [Worm.sFun, Worm.iVal, Worm.body_thickness, Worm.body_size_function_offset]
    norm_num
  have hBgt : (1.1 : ℝ) < (2.1 : ℝ) ^ ((149 : ℝ) / 1000) := by
    have hnn : (0 : ℝ) ≤ (2.1 : ℝ) ^ ((149 : ℝ) / 1000) := Real.rpow_nonneg (by norm_num) _
    apply lt_of_pow_lt_pow_left₀ 1000 hnn
    have hconv : ((2.1 : ℝ) ^ ((149 : ℝ) / 1000)) ^ (1000 : ℕ) = (2.1 : ℝ) ^ (149 : ℕ) := by
      rw [← Real.rpow_natCast ((2.1 : ℝ) ^ ((149 : ℝ) / 1000)) 1000,
        ← Real.rpow_mul (by norm_num : (0 : ℝ) ≤ 2.1)]
      norm_num
    rw [hconv]
    norm_num
  have hP0 : ¬ Worm.sFun (Worm.scaleOf 699.999) (Worm.iVal 0) < 0.5 := by
    rw [hval0]
    intro hlt
    linarith
  have hKpos : 0 < Nat.find hex :=
    Nat.pos_of_ne_zero fun h0 => hP0 ((Nat.find_eq_zero hex).1 h0)
  obtain ⟨K, hK⟩ := Nat.exists_eq_succ_of_ne_zero (Nat.pos_iff_ne_zero.1 hKpos)
  have hss : Worm.segment_sizes 699.999 =
      Worm.headSize (Worm.scaleOf 699.999) ::
        (List.range (Nat.find hex)).map
          fun k => Worm.sFun (Worm.scaleOf 699.999) (Worm.iVal k) := by
    simp only [Worm.segment_sizes, Worm.stopIndex, dif_pos hex]
  rw [hss, hK, List.range_succ_eq_map, List.map_cons] at hchain
  have hle : Worm.sFun (Worm.scaleOf 699.999) (Worm.iVal 0) ≤
      Worm.headSize (Worm.scaleOf 699.999) :=
    (List.chain'_cons.1 hchain).1
  have hoff : (1 + Worm.body_size_function_offset : ℝ) = 1.1 := by
    norm_num [Worm.body_size_function_offset]
  have hA : Worm.sFun (Worm.scaleOf 699.999) (1 + Worm.body_size_function_offset) ≤
      (1 + Worm.body_size_function_offset : ℝ) := by
    have h1 : Worm.sFun (Worm.scaleOf 699.999) (1 + Worm.body_size_function_offset) ≤
        (1 + Worm.body_size_function_offset : ℝ) ^ (1 : ℝ) := by
      apply Real.rpow_le_rpow_of_exponent_le (by rw [hoff]; norm_num)
      rw [hscale]
      simp only [Worm.body_thickness]
      rw [hoff]
      norm_num
    rwa [Real.rpow_one] at h1
  have hheadlt : Worm.headSize (Worm.scaleOf 699.999) < (2.1 : ℝ) ^ ((149 : ℝ) / 1000) := by
    apply max_lt
    · linarith [hA, hoff, hBgt]
    · linarith
  rw [hval0] at hle
  linarith

/-- Claim C2, amended: for every energy e > 0 the first value yielded by
Worm.segment_sizes (the head scale) is at least 1.0; the non-increasing
part of the claim is false (see the counterexample), because for large
energies later yields exceed the clamped head yield. -/
theorem C2_head_scale_amended (e : ℝ) (he : 0 < e) :
    1 ≤ (Worm.segment_sizes e).headI := by
  simpa [Worm.segment_sizes] using Worm.one_le_headSize (Worm.scaleOf e)

/-- Witness for the amended C2 at the concrete energy 1. -/
theorem C2_head_scale_amended_witness :
    (0 : ℝ) < 1 ∧ 1 ≤ (Worm.segment_sizes 1).headI :=
  ⟨by norm_num, C2_head_scale_amended 1 (by norm_num)⟩

/-! Structural lemmas about eat, burn, move and the relaxation pass. -/

lemma Worm.segment_sizes_ne_nil (E : ℝ) : Worm.segment_sizes E ≠ [] := by
  simp [Worm.segment_sizes]

lemma relaxGo_length (cur : Segment) (l : List Segment) :
    (relaxGo cur l).length = l.length := by
  induction l generalizing cur with
  | nil => rfl
  | cons n rest ih => simp [relaxGo, ih]

lemma relaxPass_length (l : List Segment) : (relaxPass l).length = l.length := by
  cases l with
  | nil => rfl
  | cons h t => simp [relaxPass, relaxGo_length]

lemma Worm.burn_energy_eq (w : Worm) (e : ℝ) :
    (w.burn e).energy = if w.energy - e < 0 then 0 else w.energy - e := rfl

lemma Worm.burn_length (w : Worm) (e : ℝ) :
    (w.burn e).segments.length =
      min w.segments.length (Worm.segment_sizes ((w.burn e).energy)).length := by
  simp [Worm.burn, List.length_zipWith]

lemma Worm.eat_eq_some {w : Worm} {e : ℝ} (hne : w.segments ≠ [])
    (hlen : w.segments.length ≤ (Worm.segment_sizes (w.energy + e)).length) :
    ∃ w2, w.eat e = some w2 ∧ w2.energy = w.energy + e ∧
      w2.segments.length = (Worm.segment_sizes (w.energy + e)).length ∧
      w2.base_size = w.base_size ∧ w2.vel = w.vel ∧ w2.acc = w.acc := by
  obtain ⟨last, hlast⟩ := Option.isSome_iff_exists.1 (List.getLast?_isSome.2 hne)
  refine ⟨{ w with
      energy := w.energy + e,
      segments :=
        List.zipWith (fun seg sz => ⟨seg.pos, sz * w.base_size⟩) w.segments
            (Worm.segment_sizes (w.energy + e)) ++
          ((Worm.segment_sizes (w.energy + e)).drop w.segments.length).map
            fun sz => ⟨last.pos, sz * w.base_size⟩ }, ?_, rfl, ?_, rfl, rfl, rfl⟩
  · simp only [Worm.eat, hlast]
    rw [if_neg (not_lt.2 hlen)]
  · simp only [List.length_append, List.length_zipWith, List.length_map, List.length_drop]
    omega

lemma Worm.eat_some_inv {w w2 : Worm} {e : ℝ} (heat : w.eat e = some w2)
    (h0 : 0 ≤ w.energy) (he : 0 ≤ e) : WormInv w2 := by
  rcases hlast : w.segments.getLast? with _ | last
  · simp only [Worm.eat, hlast] at heat
    simp [Worm.segment_sizes] at heat
  · simp only [Worm.eat, hlast] at heat
    by_cases hlt : (Worm.segment_sizes (w.energy + e)).length < w.segments.length
    · rw [if_pos hlt] at heat
      exact absurd heat (by simp)
    · rw [if_neg hlt] at heat
      rw [Option.some_inj] at heat
      subst heat
      constructor
      · simpa using add_nonneg h0 he
      · simp only [List.length_append, List.length_zipWith, List.length_map, List.length_drop]
        omega

lemma Worm.burn_inv {w : Worm} {e : ℝ} (h0 : 0 ≤ w.energy)
    (hL : (Worm.segment_sizes w.energy).length ≤ w.segments.length) (he : 0 ≤ e) :
    WormInv (w.burn e) := by
  have hE0 : 0 ≤ (w.burn e).energy := by
    rw [Worm.burn_energy_eq]
    by_cases hc : w.energy - e < 0
    · simp [hc]
    · simp [hc]
      linarith [not_lt.1 hc]
  have hEle : (w.burn e).energy ≤ w.energy := by
    rw [Worm.burn_energy_eq]
    by_cases hc : w.energy - e < 0
    · simp [hc]
      exact h0
    · simp [hc]
      linarith
  have hS : (Worm.segment_sizes ((w.burn e).energy)).length ≤
      (Worm.segment_sizes w.energy).length :=
    Worm.sizes_length_mono hE0 hEle
  refine ⟨hE0, ?_⟩
  rw [Worm.burn_length]
  omega

lemma Worm.drain_nonneg (w : Worm) {dt : ℝ} (hdt : 0 ≤ dt) : 0 ≤ w.drain dt := by
  unfold Worm.drain
  apply mul_nonneg _ hdt
  apply mul_nonneg _ (by norm_num [Worm.power])
  apply mul_nonneg (Real.sqrt_nonneg _) (by norm_num [Worm.energy_efficiency])

lemma Worm.move_inv {w : Worm} (hInv : WormInv w) {dt : ℝ} (hdt : 0 ≤ dt) :
    WormInv (w.move dt) := by
  have hdr : 0 ≤ w.drain dt := Worm.drain_nonneg w hdt
  have h1 : 0 ≤ (if w.energy < w.drain dt then (0:ℝ) else w.energy) ∧
      (if w.energy < w.drain dt then (0:ℝ) else w.energy) ≤ w.energy := by
    by_cases hc : w.energy < w.drain dt
    · simp [hc, hInv.1]
    · simp [hc, hInv.1]
  have hb := Worm.burn_inv (w := { w with energy := if w.energy < w.drain dt then 0 else w.energy })
    (e := w.drain dt) h1.1
    (by
      have := Worm.sizes_length_mono h1.1 h1.2
      simpa [hInv.2] using this)
    hdr
  set w2 := ({ w with energy := if w.energy < w.drain dt then 0 else w.energy } : Worm).burn
    (w.drain dt) with hw2
  constructor
  · exact hb.1
  · show (w.move dt).segments.length = _
    have hseglen : (w.move dt).segments.length = w2.segments.length := by
      simp only [Worm.move, ← hw2, relaxPass_length]
      cases w2.segments with
      | nil => rfl
      | cons h t => rfl
    have hen : (w.move dt).energy = w2.energy := by
      simp only [Worm.move, ← hw2]
    rw [hseglen, hen]
    exact hb.2

lemma reachable_inv {w : Worm} (h : Reachable w) : WormInv w := by
  induction h with
  | initBase pos radius =>
    exact ⟨le_refl 0, by simp [Worm.initState, Worm.segment_sizes_zero]⟩
  | eat w w2 e hR he heat ih => exact Worm.eat_some_inv heat ih.1 he
  | burn w e hR he ih => exact Worm.burn_inv ih.1 (le_of_eq ih.2.symm) he
  | move w dt hR hdt ih => exact Worm.move_inv ih hdt
  | setAcc w a hR ih => exact ih
  | clamp w W H hR ih =>
    rcases hseg : w.segments with _ | ⟨h1, t⟩
    · simpa [clampHead, hseg] using ih
    · have ih2 := ih.2
      rw [hseg] at ih2
      constructor
      · simpa [clampHead, hseg] using ih.1
      · simpa [clampHead, hseg] using ih2

/-- Claim C4: for every reachable worm state and every e ≥ 0, eat(e)
immediately followed by burn(e) returns the energy exactly to its prior
value and leaves the segment count less than or equal to its prior
value. -/
theorem C4_eat_burn_roundtrip (w : Worm) (hR : Reachable w) (e : ℝ) (he : 0 ≤ e) :
    ∃ w2, w.eat e = some w2 ∧ (w2.burn e).energy = w.energy ∧
      (w2.burn e).segments.length ≤ w.segments.length := by
  have hInv := reachable_inv hR
  have hne : w.segments ≠ [] := by
    have := hInv.2
    have hpos : 0 < w.segments.length := by
      rw [this, Worm.length_segment_sizes]
      omega
    exact List.ne_nil_of_length_pos hpos
  have hmono : (Worm.segment_sizes w.energy).length ≤
      (Worm.segment_sizes (w.energy + e)).length :=
    Worm.sizes_length_mono (a := w.energy) (b := w.energy + e) hInv.1 (by linarith)
  obtain ⟨w2, heat, hE, hL, _, _, _⟩ :=
    Worm.eat_eq_some hne (by rw [hInv.2]; exact hmono)
  have hEburn : (w2.burn e).energy = w.energy := by
    rw [Worm.burn_energy_eq, hE]
    rw [show w.energy + e - e = w.energy from by ring]
    rw [if_neg (not_lt.2 hInv.1)]
  refine ⟨w2, heat, hEburn, ?_⟩
  rw [Worm.burn_length, hEburn, ← hInv.2]
  omega

/-- Witness for C4 at the constructor's pre-eat state and e = 0. -/
theorem C4_eat_burn_roundtrip_witness :
    ∃ w2, (Worm.initState ⟨0, 0⟩ 10).eat 0 = some w2 ∧
      (w2.burn 0).energy = (Worm.initState ⟨0, 0⟩ 10).energy ∧
      (w2.burn 0).segments.length ≤ (Worm.initState ⟨0, 0⟩ 10).segments.length :=
  C4_eat_burn_roundtrip _ (Reachable.initBase ⟨0, 0⟩ 10) 0 (by norm_num)

/-- Claim C10: the number of values yielded by Worm.segment_sizes is
non-decreasing in the energy (for nonnegative energies), so in eat's
zip_longest pairing over a reachable worm the branch that would pair an
existing segment with a missing size (evaluating None * base_size)
never runs: eat always returns a worm rather than raising. -/
theorem C10_eat_zip_safe :
    (∀ a b : ℝ, 0 ≤ a → a ≤ b →
      (Worm.segment_sizes a).length ≤ (Worm.segment_sizes b).length) ∧
    ∀ w : Worm, Reachable w → ∀ e : ℝ, 0 ≤ e → ∃ w2, w.eat e = some w2 := by
  constructor
  · exact fun a b ha hab => Worm.sizes_length_mono ha hab
  · intro w hR e he
    have hInv := reachable_inv hR
    have hne : w.segments ≠ [] := by
      have hpos : 0 < w.segments.length := by
        rw [hInv.2, Worm.length_segment_sizes]
        omega
      exact List.ne_nil_of_length_pos hpos
    obtain ⟨w2, heat, _⟩ :=
      Worm.eat_eq_some hne
        (by
          rw [hInv.2]
          exact Worm.sizes_length_mono (a := w.energy) (b := w.energy + e) hInv.1
            (by linarith))
    exact ⟨w2, heat⟩

/-- Witness for C10: length monotonicity at energies 0 and 1, and eat
succeeding on the reachable pre-eat constructor state. -/
theorem C10_eat_zip_safe_witness :
    ((Worm.segment_sizes 0).length ≤ (Worm.segment_sizes 1).length) ∧
    ∃ w2, (Worm.initState ⟨0, 0⟩ 10).eat 0 = some w2 :=
  ⟨C10_eat_zip_safe.1 0 1 (by norm_num) (by norm_num),
   C10_eat_zip_safe.2 _ (Reachable.initBase ⟨0, 0⟩ 10) 0 (by norm_num)⟩

/-- Claim C6, counterexample: burn removes segments.  Burning the whole
unit of energy of a two-segment worm rebuilds the list with a single
segment (the generator yields one value at zero energy), so the length
strictly decreases and the claim that no operation removes segments is
false. -/
theorem C6_counterexample :
    (WormC6.burn 1).segments.length < WormC6.segments.length := by
  have hE : (WormC6.burn 1).energy = 0 := by
    rw [Worm.burn_energy_eq]
    norm_num [WormC6]
  rw [Worm.burn_length, hE, Worm.segment_sizes_zero]
  simp [WormC6]

/-- Claim C6, amended: eat never removes segments (it only updates and
appends, so the count cannot decrease), but burn rebuilds the list to
the minimum of the previous count and the regenerated scale count, so
burn (and the operations that call it) can remove tail segments. -/
theorem C6_append_only_amended (w : Worm) (e : ℝ) :
    (∀ w2, w.eat e = some w2 → w.segments.length ≤ w2.segments.length) ∧
    (w.burn e).segments.length =
      min w.segments.length (Worm.segment_sizes ((w.burn e).energy)).length := by
  constructor
  · intro w2 heat
    rcases hlast : w.segments.getLast? with _ | last
    · simp only [Worm.eat, hlast] at heat
      simp [Worm.segment_sizes] at heat
    · simp only [Worm.eat, hlast] at heat
      by_cases hlt : (Worm.segment_sizes (w.energy + e)).length < w.segments.length
      · rw [if_pos hlt] at heat
        exact absurd heat (by simp)
      · rw [if_neg hlt] at heat
        rw [Option.some_inj] at heat
        subst heat
        simp only [List.length_append, List.length_zipWith, List.length_map, List.length_drop]
        omega
  · exact Worm.burn_length w e

/-- Witness for the amended C6 on the pre-eat constructor state with
e = 0. -/
theorem C6_append_only_amended_witness :
    (∃ w2, (Worm.initState ⟨0, 0⟩ 10).eat 0 = some w2 ∧
      (Worm.initState ⟨0, 0⟩ 10).segments.length ≤ w2.segments.length) ∧
    ((Worm.initState ⟨0, 0⟩ 10).burn 0).segments.length =
      min (Worm.initState ⟨0, 0⟩ 10).segments.length
        (Worm.segment_sizes (((Worm.initState ⟨0, 0⟩ 10).burn 0).energy)).length := by
  have hlen : (Worm.initState ⟨0, 0⟩ 10).segments.length ≤
      (Worm.segment_sizes ((Worm.initState ⟨0, 0⟩ 10).energy + 0)).length := by
    simp [Worm.initState, Worm.segment_sizes_zero]
  obtain ⟨w2, heat, _⟩ :=
    Worm.eat_eq_some (w := Worm.initState ⟨0, 0⟩ 10) (e := 0) (by simp [Worm.initState]) hlen
  exact ⟨⟨w2, heat, (C6_append_only_amended _ 0).1 w2 heat⟩, (C6_append_only_amended _ 0).2⟩

/-! The relaxation pass of Worm.move. -/

lemma sqrt_eval {a b : ℝ} (hb : 0 ≤ b) (h : b * b = a) : Real.sqrt a = b := by
  rw [← h, ← sq]
  exact Real.sqrt_sq hb

lemma relaxStep_eq (p n : Segment) :
    relaxStep p n =
      if 0 < distance p.pos n.pos - (p.radius + n.radius) * (1 - node_overlap) then
        ⟨⟨n.pos.x + (p.pos.x - n.pos.x) / distance p.pos n.pos *
            (distance p.pos n.pos - (p.radius + n.radius) * (1 - node_overlap)),
          n.pos.y + (p.pos.y - n.pos.y) / distance p.pos n.pos *
            (distance p.pos n.pos - (p.radius + n.radius) * (1 - node_overlap))⟩,
         n.radius⟩
      else n := rfl

lemma relaxStep_radius (p n : Segment) : (relaxStep p n).radius = n.radius := by
  rw [relaxStep_eq]
  split <;> rfl

lemma relaxStep_close (p n : Segment) (hp : 0 ≤ p.radius) (hn : 0 ≤ n.radius) :
    distance p.pos (relaxStep p n).pos ≤ (p.radius + n.radius) * (1 - node_overlap) := by
  have hB : 0 ≤ (p.radius + n.radius) * (1 - node_overlap) := by
    unfold node_overlap
    nlinarith
  rw [relaxStep_eq]
  by_cases hclip :
      0 < distance p.pos n.pos - (p.radius + n.radius) * (1 - node_overlap)
  · rw [if_pos hclip]
    have hd : 0 < distance p.pos n.pos := lt_of_le_of_lt hB (by linarith)
    have hdne : distance p.pos n.pos ≠ 0 := ne_of_gt hd
    set B := (p.radius + n.radius) * (1 - node_overlap) with hBdef
    set d := distance p.pos n.pos with hddef
    show distance p.pos _ ≤ B
    unfold distance
    have hx : p.pos.x - (n.pos.x + (p.pos.x - n.pos.x) / d * (d - B)) =
        (p.pos.x - n.pos.x) * (B / d) := by
      field_simp
      ring
    have hy : p.pos.y - (n.pos.y + (p.pos.y - n.pos.y) / d * (d - B)) =
        (p.pos.y - n.pos.y) * (B / d) := by
      field_simp
      ring
    simp only
    rw [hx, hy]
    have hfact : (p.pos.x - n.pos.x) * (B / d) * ((p.pos.x - n.pos.x) * (B / d)) +
        (p.pos.y - n.pos.y) * (B / d) * ((p.pos.y - n.pos.y) * (B / d)) =
        (B / d) ^ 2 * ((p.pos.x - n.pos.x) * (p.pos.x - n.pos.x) +
          (p.pos.y - n.pos.y) * (p.pos.y - n.pos.y)) := by
      ring
    rw [hfact, Real.sqrt_mul (sq_nonneg _), Real.sqrt_sq (by positivity : (0:ℝ) ≤ B / d)]
    have hS : Real.sqrt ((p.pos.x - n.pos.x) * (p.pos.x - n.pos.x) +
        (p.pos.y - n.pos.y) * (p.pos.y - n.pos.y)) = d := by
      rw [hddef]
      rfl
    rw [hS, div_mul_cancel₀ _ hdne]
  · rw [if_neg hclip]
    linarith [not_lt.1 hclip]

lemma relaxGo_chain (l : List Segment) : ∀ cur : Segment, 0 ≤ cur.radius →
    (∀ s ∈ l, 0 ≤ s.radius) →
    List.Chain'
      (fun p n => distance p.pos n.pos ≤ (p.radius + n.radius) * (1 - node_overlap))
      (cur :: relaxGo cur l) := by
  induction l with
  | nil =>
    intro cur _ _
    simp [relaxGo]
  | cons n rest ih =>
    intro cur hcur hl
    simp only [relaxGo]
    refine List.chain'_cons.2 ⟨?_, ?_⟩
    · have hclose := relaxStep_close cur n hcur (hl n (by simp))
      rwa [← relaxStep_radius cur n] at hclose
    · exact ih (relaxStep cur n)
        (by rw [relaxStep_radius]; exact hl n (by simp))
        (fun s hs => hl s (by simp [hs]))

lemma relaxGo_fix (l : List Segment) : ∀ cur : Segment,
    List.Chain'
      (fun p n => distance p.pos n.pos ≤ (p.radius + n.radius) * (1 - node_overlap))
      (cur :: l) → relaxGo cur l = l := by
  induction l with
  | nil => intro cur _; rfl
  | cons n rest ih =>
    intro cur hch
    obtain ⟨h1, h2⟩ := List.chain'_cons.1 hch
    have hstep : relaxStep cur n = n := by
      rw [relaxStep_eq, if_neg (not_lt.2 (by linarith))]
    simp only [relaxGo, hstep]
    rw [ih n (hstep ▸ h2)]

/-- Claim C1, counterexample: the relaxation pass does not establish the
claimed lower bound on pair distances.  A two-segment chain with unit
radii whose positions are distinct but only 0.1 apart (closer than the
allowed overlap distance 1) is left untouched by the pass, so after the
pass the pair still violates distance ≥ (1 - 0.5) * (r_prev + r_next)
(with ε = 0; the violation margin 0.9 also defeats any tolerance below
0.9). -/
theorem C1_counterexample :
    (∀ s ∈ ([⟨⟨0, 0⟩, 1⟩, ⟨⟨0.1, 0⟩, 1⟩] : List Segment), 0 ≤ s.radius) ∧
    (⟨0, 0⟩ : Vec) ≠ (⟨0.1, 0⟩ : Vec) ∧
    ¬ List.Chain'
        (fun p n => (1 - node_overlap) * (p.radius + n.radius) ≤ distance p.pos n.pos)
        (relaxPass [⟨⟨0, 0⟩, 1⟩, ⟨⟨0.1, 0⟩, 1⟩]) := by
  have hd : distance ⟨0, 0⟩ ⟨0.1, 0⟩ = 0.1 := by
    unfold distance
    apply sqrt_eval (by norm_num)
    norm_num
  have hfix : relaxPass [(⟨⟨0, 0⟩, 1⟩ : Segment), ⟨⟨0.1, 0⟩, 1⟩] =
      [⟨⟨0, 0⟩, 1⟩, ⟨⟨0.1, 0⟩, 1⟩] := by
    simp only [relaxPass]
    rw [relaxGo_fix]
    rw [List.chain'_pair]
    simp only [hd]
    norm_num [node_overlap]
  refine ⟨by intro s hs; simp at hs; rcases hs with h | h <;> simp [h], ?_, ?_⟩
  · intro hEq
    have := congrArg Vec.x hEq
    norm_num at this
  · rw [hfix, List.chain'_pair]
    simp only [hd]
    norm_num [node_overlap]

/-- Claim C1, amended: the single relaxation pass of Worm.move enforces
an upper bound, not a lower bound: afterwards every adjacent pair
satisfies distance ≤ (1 - 0.5) * (r_prev + r_next) (followers further
out are pulled in to exactly that distance, against their already
corrected predecessor), and a chain all of whose adjacent pairs already
satisfy this bound is left entirely untouched by the pass. -/
theorem C1_relax_amended (segs : List Segment) (hrad : ∀ s ∈ segs, 0 ≤ s.radius) :
    List.Chain'
      (fun p n => distance p.pos n.pos ≤ (p.radius + n.radius) * (1 - node_overlap))
      (relaxPass segs) ∧
    (List.Chain'
      (fun p n => distance p.pos n.pos ≤ (p.radius + n.radius) * (1 - node_overlap))
      segs → relaxPass segs = segs) := by
  constructor
  · cases segs with
    | nil => simp [relaxPass]
    | cons h t =>
      exact relaxGo_chain t h (hrad h (by simp)) (fun s hs => hrad s (by simp [hs]))
  · intro hch
    cases segs with
    | nil => rfl
    | cons h t =>
      simp only [relaxPass]
      rw [relaxGo_fix t h hch]

/-- Witness for the amended C1 on a concrete two-segment chain. -/
theorem C1_relax_amended_witness :
    (∀ s ∈ ([⟨⟨0, 0⟩, 2⟩, ⟨⟨3, 4⟩, 2⟩] : List Segment), 0 ≤ s.radius) ∧
    (List.Chain'
      (fun p n => distance p.pos n.pos ≤ (p.radius + n.radius) * (1 - node_overlap))
      (relaxPass [⟨⟨0, 0⟩, 2⟩, ⟨⟨3, 4⟩, 2⟩]) ∧
    (List.Chain'
      (fun p n => distance p.pos n.pos ≤ (p.radius + n.radius) * (1 - node_overlap))
      ([⟨⟨0, 0⟩, 2⟩, ⟨⟨3, 4⟩, 2⟩] : List Segment) →
      relaxPass [⟨⟨0, 0⟩, 2⟩, ⟨⟨3, 4⟩, 2⟩] = [⟨⟨0, 0⟩, 2⟩, ⟨⟨3, 4⟩, 2⟩])) :=
  ⟨by intro s hs; simp at hs; rcases hs with h | h <;> simp [h],
   C1_relax_amended [⟨⟨0, 0⟩, 2⟩, ⟨⟨3, 4⟩, 2⟩]
     (by intro s hs; simp at hs; rcases hs with h | h <;> simp [h])⟩

/-! Worm.move characterization. -/

lemma Worm.move_energy_raw (w : Worm) (dt : ℝ) :
    (w.move dt).energy =
      (({ w with energy := if w.energy < w.drain dt then 0 else w.energy } : Worm).burn
        (w.drain dt)).energy := rfl

lemma Worm.move_vel (w : Worm) (dt : ℝ) :
    (w.move dt).vel =
      ⟨(w.vel.x + w.acc.x * Worm.power * dt) * (1 - Worm.drag),
       (w.vel.y + w.acc.y * Worm.power * dt) * (1 - Worm.drag)⟩ := rfl

lemma Worm.burn_ne_nil {w : Worm} (hne : w.segments ≠ []) (e : ℝ) :
    (w.burn e).segments ≠ [] := by
  obtain ⟨s0, rest, hseg⟩ := List.exists_cons_of_ne_nil hne
  simp [Worm.burn, hseg, Worm.segment_sizes]

lemma Worm.burn_headI_pos (w : Worm) (e : ℝ) :
    ((w.burn e).segments).headI.pos = w.segments.headI.pos := by
  cases hseg : w.segments with
  | nil => simp [Worm.burn, hseg]
  | cons s0 rest =>
    simp [Worm.burn, hseg, Worm.segment_sizes, List.zipWith_cons_cons]

/-- Claim C5: every Worm.move(dt) call computes the drain from the
acceleration magnitude, the inefficiency factor, the power and the
timestep, drives the energy to max(energy - drain, 0) (flooring at zero
when the drain exceeds the available energy), and always applies the
velocity update and the head-position shift: the move is never
cancelled for lack of energy. -/
theorem C5_move_energy_floor (w : Worm) (dt : ℝ) (hdt : 0 ≤ dt) :
    (w.move dt).energy = max (w.energy - w.drain dt) 0 ∧
    (w.move dt).vel =
      ⟨(w.vel.x + w.acc.x * Worm.power * dt) * (1 - Worm.drag),
       (w.vel.y + w.acc.y * Worm.power * dt) * (1 - Worm.drag)⟩ ∧
    (w.segments ≠ [] →
      (w.move dt).headPos =
        ⟨w.headPos.x + (w.move dt).vel.x, w.headPos.y + (w.move dt).vel.y⟩) := by
  have hd : 0 ≤ w.drain dt := Worm.drain_nonneg w hdt
  refine ⟨?_, rfl, ?_⟩
  · rw [Worm.move_energy_raw, Worm.burn_energy_eq]
    have hproj : ({ w with energy := if w.energy < w.drain dt then 0 else w.energy } :
        Worm).energy = if w.energy < w.drain dt then 0 else w.energy := rfl
    rw [hproj]
    by_cases hc : w.energy < w.drain dt
    · rw [if_pos hc, max_eq_right (by linarith)]
      by_cases h2 : (0 : ℝ) - w.drain dt < 0
      · rw [if_pos h2]
      · rw [if_neg h2]
        have := not_lt.1 h2
        linarith
    · rw [if_neg hc]
      have hnc := not_lt.1 hc
      rw [if_neg (by linarith : ¬(w.energy - w.drain dt < 0))]
      rw [max_eq_left (by linarith)]
  · intro hne
    have hBne : (({ w with energy := if w.energy < w.drain dt then 0 else w.energy } :
        Worm).burn (w.drain dt)).segments ≠ [] :=
      Worm.burn_ne_nil
        (w := ({ w with energy := if w.energy < w.drain dt then 0 else w.energy } : Worm))
        hne (w.drain dt)
    obtain ⟨h1, t1, hBcons⟩ := List.exists_cons_of_ne_nil hBne
    have hmoveseg : (w.move dt).segments =
        relaxPass ((⟨⟨h1.pos.x + (w.move dt).vel.x, h1.pos.y + (w.move dt).vel.y⟩,
          h1.radius⟩ : Segment) :: t1) := by
      simp only [Worm.move, hBcons]
    have hpos : h1.pos = w.segments.headI.pos := by
      have := Worm.burn_headI_pos
        ({ w with energy := if w.energy < w.drain dt then 0 else w.energy } : Worm)
        (w.drain dt)
      rw [hBcons] at this
      simpa using this
    rw [Worm.headPos, hmoveseg]
    simp only [relaxPass, List.headI_cons]
    rw [Worm.headPos, ← hpos]

/-- Witness for C5 on a concrete one-segment worm at dt = 1. -/
theorem C5_move_energy_floor_witness :
    ((⟨[⟨⟨800, 450⟩, 10⟩], 1, ⟨0, 0⟩, ⟨0, 0⟩, 10⟩ : Worm).move 1).energy =
      max ((⟨[⟨⟨800, 450⟩, 10⟩], 1, ⟨0, 0⟩, ⟨0, 0⟩, 10⟩ : Worm).energy -
        (⟨[⟨⟨800, 450⟩, 10⟩], 1, ⟨0, 0⟩, ⟨0, 0⟩, 10⟩ : Worm).drain 1) 0 ∧
    ((⟨[⟨⟨800, 450⟩, 10⟩], 1, ⟨0, 0⟩, ⟨0, 0⟩, 10⟩ : Worm).move 1).vel =
      ⟨((⟨[⟨⟨800, 450⟩, 10⟩], 1, ⟨0, 0⟩, ⟨0, 0⟩, 10⟩ : Worm).vel.x +
          (⟨[⟨⟨800, 450⟩, 10⟩], 1, ⟨0, 0⟩, ⟨0, 0⟩, 10⟩ : Worm).acc.x * Worm.power * 1) *
         (1 - Worm.drag),
       ((⟨[⟨⟨800, 450⟩, 10⟩], 1, ⟨0, 0⟩, ⟨0, 0⟩, 10⟩ : Worm).vel.y +
          (⟨[⟨⟨800, 450⟩, 10⟩], 1, ⟨0, 0⟩, ⟨0, 0⟩, 10⟩ : Worm).acc.y * Worm.power * 1) *
         (1 - Worm.drag)⟩ ∧
    ((⟨[⟨⟨800, 450⟩, 10⟩], 1, ⟨0, 0⟩, ⟨0, 0⟩, 10⟩ : Worm).segments ≠ [] →
      ((⟨[⟨⟨800, 450⟩, 10⟩], 1, ⟨0, 0⟩, ⟨0, 0⟩, 10⟩ : Worm).move 1).headPos =
        ⟨(⟨[⟨⟨800, 450⟩, 10⟩], 1, ⟨0, 0⟩, ⟨0, 0⟩, 10⟩ : Worm).headPos.x +
          ((⟨[⟨⟨800, 450⟩, 10⟩], 1, ⟨0, 0⟩, ⟨0, 0⟩, 10⟩ : Worm).move 1).vel.x,
         (⟨[⟨⟨800, 450⟩, 10⟩], 1, ⟨0, 0⟩, ⟨0, 0⟩, 10⟩ : Worm).headPos.y +
          ((⟨[⟨⟨800, 450⟩, 10⟩], 1, ⟨0, 0⟩, ⟨0, 0⟩, 10⟩ : Worm).move 1).vel.y⟩) :=
  C5_move_energy_floor ⟨[⟨⟨800, 450⟩, 10⟩], 1, ⟨0, 0⟩, ⟨0, 0⟩, 10⟩ 1 (by norm_num)

/-! Virus state machine. -/

lemma Virus.update_dormant {v : Virus} (h : v.active = false) (worms : List Worm) (dt : ℝ)
    (hlt : ¬ (v.inactivity_time < v.lifetime + dt)) :
    (v.update worms dt).1 = { v with lifetime := v.lifetime + dt } := by
  simp only [Virus.update]
  rw [if_pos (by simpa using h), if_neg (by simpa using hlt)]

lemma Virus.update_trigger {v : Virus} (h : v.active = false) (worms : List Worm) (dt : ℝ)
    (hgt : v.inactivity_time < v.lifetime + dt) :
    (v.update worms dt).1 = { v with lifetime := v.lifetime + dt, active := true } := by
  simp only [Virus.update]
  rw [if_pos (by simpa using h), if_pos (by simpa using hgt)]

lemma Virus.update_active_preserved (v : Virus) (worms : List Worm) (dt : ℝ)
    (h : v.active = true) : ((v.update worms dt).1).active = true := by
  simp only [Virus.update]
  rw [if_neg (by simp [h])]
  cases hcw : closestWorm v.vision_range v.pos worms with
  | none => simpa using h
  | some pr => simp [hcw, Virus.move, h]

lemma virusTraj_dormant (p : Vec) (r : ℝ) (worms : ℕ → List Worm) :
    ∀ k, k ≤ 180 →
      (virusTraj p r worms k).active = false ∧
      (virusTraj p r worms k).lifetime = k * (1 / 60) ∧
      (virusTraj p r worms k).inactivity_time = 3 := by
  intro k
  induction k with
  | zero =>
    intro _
    refine ⟨rfl, by simp [virusTraj, Virus.init], by norm_num [virusTraj, Virus.init]⟩
  | succ k ih =>
    intro hk
    obtain ⟨ha, hl, hi⟩ := ih (by omega)
    have hlt : ¬ ((virusTraj p r worms k).inactivity_time <
        (virusTraj p r worms k).lifetime + 1 / 60) := by
      rw [hi, hl]
      have hc : (k : ℝ) ≤ 179 := by exact_mod_cast (by omega : k ≤ 179)
      intro hcon
      nlinarith
    have hstep : virusTraj p r worms (k + 1) =
        { virusTraj p r worms k with
          lifetime := (virusTraj p r worms k).lifetime + 1 / 60 } :=
      Virus.update_dormant ha (worms k) (1 / 60) hlt
    rw [hstep]
    refine ⟨ha, ?_, hi⟩
    simp only [hl]
    push_cast
    ring

/-- Claim C9: a virus constructed with inactivity_time = 3.0 and stepped
with dt = 1/60 (against arbitrary per-tick worm lists) is dormant
through its first 180 update calls, becomes active on the 181st call
(at or after the 180th tick, exactly once), and never returns to the
dormant state afterwards. -/
theorem C9_virus_activation (p : Vec) (r : ℝ) (worms : ℕ → List Worm) :
    (∀ k, k ≤ 180 → (virusTraj p r worms k).active = false) ∧
    (virusTraj p r worms 181).active = true ∧
    (∀ k, 181 ≤ k → (virusTraj p r worms k).active = true) := by
  have hdorm := virusTraj_dormant p r worms
  have h181 : (virusTraj p r worms 181).active = true := by
    obtain ⟨ha, hl, hi⟩ := hdorm 180 (le_refl _)
    have hgt : (virusTraj p r worms 180).inactivity_time <
        (virusTraj p r worms 180).lifetime + 1 / 60 := by
      rw [hi, hl]
      norm_num
    have hstep : virusTraj p r worms 181 =
        { virusTraj p r worms 180 with
          lifetime := (virusTraj p r worms 180).lifetime + 1 / 60, active := true } :=
      Virus.update_trigger ha (worms 180) (1 / 60) hgt
    rw [hstep]
  refine ⟨fun k hk => (hdorm k hk).1, h181, ?_⟩
  intro k hk
  induction k, hk using Nat.le_induction with
  | base => exact h181
  | succ k hk ih => exact Virus.update_active_preserved _ (worms k) (1 / 60) ih

/-- Witness for C9 at a concrete spawn point with no worms present. -/
theorem C9_virus_activation_witness :
    ((virusTraj ⟨0, 0⟩ 7 (fun _ => []) 180).active = false) ∧
    ((virusTraj ⟨0, 0⟩ 7 (fun _ => []) 181).active = true) ∧
    ((virusTraj ⟨0, 0⟩ 7 (fun _ => []) 200).active = true) :=
  ⟨(C9_virus_activation ⟨0, 0⟩ 7 (fun _ => [])).1 180 (by norm_num),
   (C9_virus_activation ⟨0, 0⟩ 7 (fun _ => [])).2.1,
   (C9_virus_activation ⟨0, 0⟩ 7 (fun _ => [])).2.2 200 (by norm_num)⟩

/-! The food loop of Simulation.update. -/

lemma mem_drop_of_le {α : Type} {l : List α} {i j : ℕ} (hij : i ≤ j) {x : α}
    (hx : x ∈ l.drop j) : x ∈ l.drop i := by
  have hsplit : l.drop j = (l.drop i).drop (j - i) := by
    rw [List.drop_drop]
    congr 1
    omega
  rw [hsplit] at hx
  exact (List.drop_sublist _ _).mem hx

lemma mem_drop_eraseIdx {α : Type} {l : List α} {i : ℕ} (hi : i < l.length) {x : α}
    (hx : x ∈ (l.eraseIdx i).drop (i + 1)) : x ∈ l.drop i := by
  rw [List.eraseIdx_eq_take_drop_succ] at hx
  have htl : (l.take i).length = i := by
    simp [List.length_take]
    omega
  rw [show i + 1 = (l.take i).length + 1 from by rw [htl]] at hx
  rw [List.drop_append] at hx
  rw [List.drop_drop] at hx
  exact mem_drop_of_le (by omega) hx

lemma Food.update_keep_iff (f : Food) (dt : ℝ) :
    ((f.update dt).2 = true) ↔ 0.7 < f.radius - 0.4 * dt := by
  simp only [Food.update]
  split <;> simp_all

lemma foodLoop_mem (dt : ℝ) :
    ∀ (n : ℕ) (w : Worm) (foods : List Food) (i : ℕ) (w2 : Worm) (foods2 : List Food),
      foods.length - i ≤ n →
      foodLoop w foods i dt = some (w2, foods2) →
      ∀ f ∈ foods2,
        (∃ g ∈ foods.drop i, f = ⟨g.pos, g.radius - 0.4 * dt⟩ ∧
          0.7 < g.radius - 0.4 * dt) ∨ f ∈ foods := by
  intro n
  induction n with
  | zero =>
    intro w foods i w2 foods2 hn hloop f hf
    have hterm : foods.length ≤ i := by omega
    rw [foodLoop, dif_pos hterm, Option.some_inj] at hloop
    injection hloop with h1 h2
    subst h2
    exact Or.inr hf
  | succ n ih =>
    intro w foods i w2 foods2 hn hloop f hf
    by_cases hterm : foods.length ≤ i
    · rw [foodLoop, dif_pos hterm, Option.some_inj] at hloop
      injection hloop with h1 h2
      subst h2
      exact Or.inr hf
    · have hilen : i < foods.length := by omega
      rw [foodLoop, dif_neg hterm] at hloop
      split at hloop
      · -- consumption branch
        rcases heat : w.eat 0.1 with _ | wE
        · rw [heat] at hloop
          simp at hloop
        · rw [heat] at hloop
          have hmeas : (foods.eraseIdx i).length - (i + 1) ≤ n := by
            have hlen2 : (foods.eraseIdx i).length = foods.length - 1 := by
              simp [List.length_eraseIdx, hilen]
            omega
          have hres := ih wE (foods.eraseIdx i) (i + 1) w2 foods2 hmeas hloop f hf
          rcases hres with ⟨g, hg, hfe, hk⟩ | hmem
          · exact Or.inl ⟨g, mem_drop_eraseIdx hilen hg, hfe, hk⟩
          · exact Or.inr ((List.eraseIdx_sublist _ _).mem hmem)
      · -- decay branch
        split at hloop
        · -- food kept, radius decayed in place
          rename_i hkeep
          have hmeas : (foods.set i ((foods.get ⟨i, hilen⟩).update dt).1).length - (i + 1) ≤
              n := by
            simp only [List.length_set]
            omega
          have hres := ih w _ (i + 1) w2 foods2 hmeas hloop f hf
          rcases hres with ⟨g, hg, hfe, hk⟩ | hmem
          · rw [List.drop_set_of_lt _ _ (by omega)] at hg
            exact Or.inl ⟨g, mem_drop_of_le (by omega) hg, hfe, hk⟩
          · rcases List.mem_or_eq_of_mem_set hmem with hf2 | hf2
            · exact Or.inr hf2
            · refine Or.inl ⟨foods.get ⟨i, hilen⟩, ?_, ?_, ?_⟩
              · rw [List.drop_eq_getElem_cons hilen]
                exact List.mem_cons_self _ _
              · exact hf2
              · exact (Food.update_keep_iff _ dt).1 hkeep
        · -- food removed after decaying below the threshold
          have hmeas : (foods.eraseIdx i).length - (i + 1) ≤ n := by
            have hlen2 : (foods.eraseIdx i).length = foods.length - 1 := by
              simp [List.length_eraseIdx, hilen]
            omega
          have hres := ih w (foods.eraseIdx i) (i + 1) w2 foods2 hmeas hloop f hf
          rcases hres with ⟨g, hg, hfe, hk⟩ | hmem
          · exact Or.inl ⟨g, mem_drop_eraseIdx hilen hg, hfe, hk⟩
          · exact Or.inr ((List.eraseIdx_sublist _ _).mem hmem)

/-- Claim C7, amended: in the food phase of Simulation.update every food
still present at the end either was processed and kept, in which case
its radius was decreased by exactly 0.4 * dt and the decayed radius
exceeds the 0.7 removal threshold, or is an original food left
completely untouched: because the loop removes list elements during
iteration, the element immediately following a removed food is skipped
that tick, so not every surviving food is decayed, and removal is
guaranteed only for the foods the iterator actually visits (consumed on
head contact, or decayed to at most 0.7). -/
theorem C7_food_decay_amended (w : Worm) (foods : List Food) (dt : ℝ) (w2 : Worm)
    (foods2 : List Food) (h : foodLoop w foods 0 dt = some (w2, foods2)) :
    ∀ f ∈ foods2,
      (∃ g ∈ foods, f = ⟨g.pos, g.radius - 0.4 * dt⟩ ∧ 0.7 < g.radius - 0.4 * dt) ∨
        f ∈ foods := by
  have hres := foodLoop_mem dt foods.length w foods 0 w2 foods2 (by omega) h
  simpa using hres

lemma Vec.magnitude_zero : Vec.magnitude ⟨0, 0⟩ = 0 := by
  simp [Vec.magnitude]

lemma Vec.normalized_zero : Vec.normalized 0 0 = ⟨0, 0⟩ := by
  simp [Vec.normalized]

lemma distance_self (a : Vec) : distance a a = 0 := by
  simp [distance]

lemma wormC7_move : (⟨[⟨⟨0, 0⟩, 10⟩], 1, ⟨0, 0⟩, ⟨0, 0⟩, 10⟩ : Worm).move (1 / 60) =
    ⟨[⟨⟨0, 0⟩, 10⟩], 1, ⟨0, 0⟩, ⟨0, 0⟩, 10⟩ := by
  simp only [Worm.move, Worm.drain, Worm.burn, Vec.magnitude, Worm.segment_sizes,
    Worm.headSize_scaleOf_one, relaxPass, relaxGo, Worm.power, Worm.drag,
    Worm.energy_efficiency, List.zipWith_cons_cons, List.zipWith_nil_left,
    Real.sqrt_zero]
  norm_num
  exact Worm.headSize_scaleOf_one

lemma wormC7_updateManual :
    (⟨[⟨⟨0, 0⟩, 10⟩], 1, ⟨0, 0⟩, ⟨0, 0⟩, 10⟩ : Worm).updateManual
      ⟨false, false, false, false, none, none, none⟩ (1 / 60) =
    ⟨[⟨⟨0, 0⟩, 10⟩], 1, ⟨0, 0⟩, ⟨0, 0⟩, 10⟩ := by
  simp only [Worm.updateManual]
  norm_num [Vec.normalized_zero]
  exact wormC7_move

lemma wormC7_clamp :
    clampHead (⟨[⟨⟨0, 0⟩, 10⟩], 1, ⟨0, 0⟩, ⟨0, 0⟩, 10⟩ : Worm) 1600 900 =
    ⟨[⟨⟨0, 0⟩, 10⟩], 1, ⟨0, 0⟩, ⟨0, 0⟩, 10⟩ := by
  simp only [clampHead]
  norm_num

lemma wormC7_foodLoop :
    ∃ wE, (⟨[⟨⟨0, 0⟩, 10⟩], 1, ⟨0, 0⟩, ⟨0, 0⟩, 10⟩ : Worm).eat 0.1 = some wE ∧
      foodLoop (⟨[⟨⟨0, 0⟩, 10⟩], 1, ⟨0, 0⟩, ⟨0, 0⟩, 10⟩ : Worm)
        [⟨⟨0, 0⟩, 1⟩, ⟨⟨100, 0⟩, 5⟩] 0 (1 / 60) = some (wE, [⟨⟨100, 0⟩, 5⟩]) := by
  obtain ⟨wE, heat, _⟩ :=
    Worm.eat_eq_some (w := ⟨[⟨⟨0, 0⟩, 10⟩], 1, ⟨0, 0⟩, ⟨0, 0⟩, 10⟩) (e := 0.1)
      (by simp)
      (by rw [Worm.length_segment_sizes]; simp)
  refine ⟨wE, heat, ?_⟩
  rw [foodLoop, dif_neg (by simp)]
  rw [if_pos (by simp [Worm.headPos, Worm.headRadius, distance_self]; norm_num)]
  rw [heat]
  show foodLoop wE ([⟨⟨0, 0⟩, 1⟩, ⟨⟨100, 0⟩, 5⟩].eraseIdx 0) 1 (1 / 60) = _
  rw [show ([⟨⟨0, 0⟩, 1⟩, ⟨⟨100, 0⟩, 5⟩] : List Food).eraseIdx 0 = [⟨⟨100, 0⟩, 5⟩] from
    rfl]
  rw [foodLoop, dif_pos (by simp)]

/-- Claim C7, counterexample: during a Simulation.update tick in which
the head consumes the first food, the food right after it in the list
is skipped by the removal-during-iteration pattern: it survives the
tick with its radius completely unchanged (5 instead of the claimed
5 - 0.4 * dt, and 0.4 * dt is nonzero), so not every food remaining at
the end of the call had its radius strictly decreased by 0.4 * dt. -/
theorem C7_counterexample :
    (Simulation.update
        ⟨1 / 60, 1600, 900, true,
          ⟨[⟨⟨0, 0⟩, 10⟩], 1, ⟨0, 0⟩, ⟨0, 0⟩, 10⟩,
          [⟨⟨0, 0⟩, 1⟩, ⟨⟨100, 0⟩, 5⟩], []⟩
        ⟨false, false, false, false, none, none, none⟩).map Simulation.foods =
      some [⟨⟨100, 0⟩, 5⟩] ∧
    (0.4 * ((1 : ℝ) / 60) ≠ 0) := by
  constructor
  · obtain ⟨wE, heat, hloop⟩ := wormC7_foodLoop
    simp only [Simulation.update, if_true]
    rw [wormC7_updateManual]
    rw [if_pos (by norm_num :
      (0 : ℝ) < (⟨[⟨⟨0, 0⟩, 10⟩], 1, ⟨0, 0⟩, ⟨0, 0⟩, 10⟩ : Worm).energy)]
    show (Option.map Simulation.foods
      (match
        foodLoop (clampHead ⟨[⟨⟨0, 0⟩, 10⟩], 1, ⟨0, 0⟩, ⟨0, 0⟩, 10⟩ 1600 900)
          [⟨⟨0, 0⟩, 1⟩, ⟨⟨100, 0⟩, 5⟩] 0 (1 / 60) with
      | none => none
      | some (w3, foods2) =>
        some { update_dt := 1 / 60, window_width := 1600, window_height := 900,
               manual_control := true, worm := (virusLoop w3 [] 0 (1 / 60)).1,
               foods := foods2, viruses := (virusLoop w3 [] 0 (1 / 60)).2 })) =
        some [⟨⟨100, 0⟩, 5⟩]
    rw [wormC7_clamp, hloop]
    rfl
  · norm_num

/-- Witness for the amended C7: the skipped food of the concrete
two-food tick is accounted for by the untouched disjunct. -/
theorem C7_food_decay_amended_witness :
    (∃ g ∈ [(⟨⟨0, 0⟩, 1⟩ : Food), ⟨⟨100, 0⟩, 5⟩],
      (⟨⟨100, 0⟩, 5⟩ : Food) = ⟨g.pos, g.radius - 0.4 * (1 / 60)⟩ ∧
        0.7 < g.radius - 0.4 * (1 / 60)) ∨
    (⟨⟨100, 0⟩, 5⟩ : Food) ∈ [(⟨⟨0, 0⟩, 1⟩ : Food), ⟨⟨100, 0⟩, 5⟩] := by
  obtain ⟨wE, heat, hloop⟩ := wormC7_foodLoop
  exact C7_food_decay_amended _ _ _ wE _ hloop (⟨⟨100, 0⟩, 5⟩ : Food) (by simp)

/-! Head-position preservation through the entity loops, for the
boundary-clamping claim. -/

lemma Worm.eat_headI_pos {w w2 : Worm} {e : ℝ} (heat : w.eat e = some w2) :
    w2.segments.headI.pos = w.segments.headI.pos := by
  rcases hlast : w.segments.getLast? with _ | last
  · simp only [Worm.eat, hlast] at heat
    simp [Worm.segment_sizes] at heat
  · simp only [Worm.eat, hlast] at heat
    by_cases hlt : (Worm.segment_sizes (w.energy + e)).length < w.segments.length
    · rw [if_pos hlt] at heat
      exact absurd heat (by simp)
    · rw [if_neg hlt] at heat
      rw [Option.some_inj] at heat
      subst heat
      cases hseg : w.segments with
      | nil =>
        rw [hseg] at hlast
        simp at hlast
      | cons s0 rest =>
        simp [hseg, Worm.segment_sizes, List.zipWith_cons_cons]

lemma foodLoop_headI_pos (dt : ℝ) :
    ∀ (n : ℕ) (w : Worm) (foods : List Food) (i : ℕ) (w2 : Worm) (foods2 : List Food),
      foods.length - i ≤ n →
      foodLoop w foods i dt = some (w2, foods2) →
      w2.segments.headI.pos = w.segments.headI.pos := by
  intro n
  induction n with
  | zero =>
    intro w foods i w2 foods2 hn hloop
    have hterm : foods.length ≤ i := by omega
    rw [foodLoop, dif_pos hterm, Option.some_inj] at hloop
    injection hloop with h1 h2
    rw [← h1]
  | succ n ih =>
    intro w foods i w2 foods2 hn hloop
    by_cases hterm : foods.length ≤ i
    · rw [foodLoop, dif_pos hterm, Option.some_inj] at hloop
      injection hloop with h1 h2
      rw [← h1]
    · have hilen : i < foods.length := by omega
      rw [foodLoop, dif_neg hterm] at hloop
      split at hloop
      · rcases heat : w.eat 0.1 with _ | wE
        · rw [heat] at hloop
          simp at hloop
        · rw [heat] at hloop
          have hmeas : (foods.eraseIdx i).length - (i + 1) ≤ n := by
            have hlen2 : (foods.eraseIdx i).length = foods.length - 1 := by
              simp [List.length_eraseIdx, hilen]
            omega
          rw [ih wE (foods.eraseIdx i) (i + 1) w2 foods2 hmeas hloop]
          exact Worm.eat_headI_pos heat
      · split at hloop
        · have hmeas :
              (foods.set i ((foods.get ⟨i, hilen⟩).update dt).1).length - (i + 1) ≤ n := by
            simp only [List.length_set]
            omega
          exact ih w _ (i + 1) w2 foods2 hmeas hloop
        · have hmeas : (foods.eraseIdx i).length - (i + 1) ≤ n := by
            have hlen2 : (foods.eraseIdx i).length = foods.length - 1 := by
              simp [List.length_eraseIdx, hilen]
            omega
          exact ih w (foods.eraseIdx i) (i + 1) w2 foods2 hmeas hloop

lemma virusLoop_headI_pos (dt : ℝ) :
    ∀ (n : ℕ) (w : Worm) (vs : List Virus) (i : ℕ),
      vs.length - i ≤ n →
      ((virusLoop w vs i dt).1).segments.headI.pos = w.segments.headI.pos := by
  intro n
  induction n with
  | zero =>
    intro w vs i hn
    have hterm : vs.length ≤ i := by omega
    rw [virusLoop, dif_pos hterm]
  | succ n ih =>
    intro w vs i hn
    by_cases hterm : vs.length ≤ i
    · rw [virusLoop, dif_pos hterm]
    · have hilen : i < vs.length := by omega
      rw [virusLoop, dif_neg hterm]
      split
      · have hmeas : (vs.eraseIdx i).length - (i + 1) ≤ n := by
          have hlen2 : (vs.eraseIdx i).length = vs.length - 1 := by
            simp [List.length_eraseIdx, hilen]
          omega
        rw [ih (w.burn 0.1) (vs.eraseIdx i) (i + 1) hmeas]
        exact Worm.burn_headI_pos w 0.1
      · split
        · have hmeas : (vs.set i ((vs.get ⟨i, hilen⟩).update [w] dt).1).length - (i + 1) ≤
              n := by
            simp only [List.length_set]
            omega
          exact ih w _ (i + 1) hmeas
        · have hmeas : (vs.eraseIdx i).length - (i + 1) ≤ n := by
            have hlen2 : (vs.eraseIdx i).length = vs.length - 1 := by
              simp [List.length_eraseIdx, hilen]
            omega
          exact ih w (vs.eraseIdx i) (i + 1) hmeas

lemma clampHead_bounds (w : Worm) {W H : ℝ} (hW : 0 ≤ W) (hH : 0 ≤ H) :
    0 ≤ (clampHead w W H).segments.headI.pos.x ∧
    (clampHead w W H).segments.headI.pos.x ≤ W ∧
    0 ≤ (clampHead w W H).segments.headI.pos.y ∧
    (clampHead w W H).segments.headI.pos.y ≤ H := by
  cases hseg : w.segments with
  | nil =>
    simp only [clampHead, hseg, List.headI_nil]
    refine ⟨le_refl 0, hW, le_refl 0, hH⟩
  | cons h t =>
    simp only [clampHead, hseg, List.headI_cons]
    refine ⟨?_, ?_, ?_, ?_⟩
    · dsimp only
      split_ifs with ha hb
      · exact le_refl 0
      · exact hW
      · exact not_lt.1 ha
    · dsimp only
      split_ifs with ha hb
      · exact hW
      · exact le_refl W
      · exact not_lt.1 hb
    · dsimp only
      split_ifs with ha hb
      · exact le_refl 0
      · exact hH
      · exact not_lt.1 ha
    · dsimp only
      split_ifs with ha hb
      · exact hH
      · exact le_refl H
      · exact not_lt.1 hb

/-- Claim C8: after every Simulation.update call that returns a state,
the worm's head position lies within the field rectangle
[0, window_width] x [0, window_height], for any acceleration or
velocity produced during the tick: the clamp runs after movement, and
the food and virus phases change only radii and energy, never the
head's position. -/
theorem C8_head_in_bounds (sim : Simulation) (env : SimEnv) (sim2 : Simulation)
    (h : Simulation.update sim env = some sim2)
    (hW : 0 ≤ sim.window_width) (hH : 0 ≤ sim.window_height) :
    0 ≤ sim2.worm.headPos.x ∧ sim2.worm.headPos.x ≤ sim.window_width ∧
    0 ≤ sim2.worm.headPos.y ∧ sim2.worm.headPos.y ≤ sim.window_height := by
  simp only [Simulation.update] at h
  split at h
  · exact absurd h (by simp)
  · rename_i w1 heq1
    split at h
    · exact absurd h (by simp)
    · rename_i w3 foods2 heq2
      rw [Option.some_inj] at h
      subst h
      have hfood := foodLoop_headI_pos sim.update_dt
        (match env.foodSpawn with
          | none => sim.foods
          | some p => sim.foods ++ [({ pos := p, radius := 10 } : Food)]).length
        (clampHead w1 sim.window_width sim.window_height)
        (match env.foodSpawn with
          | none => sim.foods
          | some p => sim.foods ++ [({ pos := p, radius := 10 } : Food)])
        0 w3 foods2 (by omega) heq2
      have hvirus := virusLoop_headI_pos sim.update_dt
        (match env.virusSpawn with
          | none => sim.viruses
          | some p => sim.viruses ++ [Virus.init p 7]).length
        w3
        (match env.virusSpawn with
          | none => sim.viruses
          | some p => sim.viruses ++ [Virus.init p 7])
        0 (by omega)
      have hclamp := clampHead_bounds w1 hW hH
      simp only [Worm.headPos]
      rw [hvirus, hfood]
      exact hclamp

lemma simC8_update :
    Simulation.update
      ⟨1 / 60, 1600, 900, true, ⟨[⟨⟨0, 0⟩, 10⟩], 1, ⟨0, 0⟩, ⟨0, 0⟩, 10⟩, [], []⟩
      ⟨false, false, false, false, none, none, none⟩ =
    some ⟨1 / 60, 1600, 900, true, ⟨[⟨⟨0, 0⟩, 10⟩], 1, ⟨0, 0⟩, ⟨0, 0⟩, 10⟩, [], []⟩ := by
  simp only [Simulation.update, if_true]
  rw [wormC7_updateManual]
  rw [if_pos (by norm_num :
    (0 : ℝ) < (⟨[⟨⟨0, 0⟩, 10⟩], 1, ⟨0, 0⟩, ⟨0, 0⟩, 10⟩ : Worm).energy)]
  show ((match
      foodLoop (clampHead ⟨[⟨⟨0, 0⟩, 10⟩], 1, ⟨0, 0⟩, ⟨0, 0⟩, 10⟩ 1600 900) [] 0 (1 / 60)
      with
    | none => none
    | some (w3, foods2) =>
      some { update_dt := 1 / 60, window_width := 1600, window_height := 900,
             manual_control := true, worm := (virusLoop w3 [] 0 (1 / 60)).1,
             foods := foods2, viruses := (virusLoop w3 [] 0 (1 / 60)).2 }) :
      Option Simulation) =
    some ⟨1 / 60, 1600, 900, true, ⟨[⟨⟨0, 0⟩, 10⟩], 1, ⟨0, 0⟩, ⟨0, 0⟩, 10⟩, [], []⟩
  rw [wormC7_clamp]
  rw [foodLoop, dif_pos (by simp : ([] : List Food).length ≤ 0)]
  show some ({ update_dt := (1 : ℝ) / 60, window_width := (1600 : ℝ),
               window_height := (900 : ℝ), manual_control := true,
               worm := (virusLoop (⟨[⟨⟨0, 0⟩, 10⟩], 1, ⟨0, 0⟩, ⟨0, 0⟩, 10⟩ : Worm) [] 0
                 (1 / 60)).1,
               foods := ([] : List Food),
               viruses := (virusLoop (⟨[⟨⟨0, 0⟩, 10⟩], 1, ⟨0, 0⟩, ⟨0, 0⟩, 10⟩ : Worm) [] 0
                 (1 / 60)).2 } : Simulation) =
    some ⟨1 / 60, 1600, 900, true, ⟨[⟨⟨0, 0⟩, 10⟩], 1, ⟨0, 0⟩, ⟨0, 0⟩, 10⟩, [], []⟩
  rw [virusLoop, dif_pos (by simp : ([] : List Virus).length ≤ 0)]

/-- Witness for C8 on a concrete tick that keeps the worm alive. -/
theorem C8_head_in_bounds_witness :
    0 ≤ (⟨1 / 60, 1600, 900, true, ⟨[⟨⟨0, 0⟩, 10⟩], 1, ⟨0, 0⟩, ⟨0, 0⟩, 10⟩, [], []⟩ :
        Simulation).worm.headPos.x ∧
    (⟨1 / 60, 1600, 900, true, ⟨[⟨⟨0, 0⟩, 10⟩], 1, ⟨0, 0⟩, ⟨0, 0⟩, 10⟩, [], []⟩ :
        Simulation).worm.headPos.x ≤ 1600 ∧
    0 ≤ (⟨1 / 60, 1600, 900, true, ⟨[⟨⟨0, 0⟩, 10⟩], 1, ⟨0, 0⟩, ⟨0, 0⟩, 10⟩, [], []⟩ :
        Simulation).worm.headPos.y ∧
    (⟨1 / 60, 1600, 900, true, ⟨[⟨⟨0, 0⟩, 10⟩], 1, ⟨0, 0⟩, ⟨0, 0⟩, 10⟩, [], []⟩ :
        Simulation).worm.headPos.y ≤ 900 :=
  C8_head_in_bounds
    ⟨1 / 60, 1600, 900, true, ⟨[⟨⟨0, 0⟩, 10⟩], 1, ⟨0, 0⟩, ⟨0, 0⟩, 10⟩, [], []⟩
    ⟨false, false, false, false, none, none, none⟩
    ⟨1 / 60, 1600, 900, true, ⟨[⟨⟨0, 0⟩, 10⟩], 1, ⟨0, 0⟩, ⟨0, 0⟩, 10⟩, [], []⟩
    simC8_update (by norm_num) (by norm_num)
